import Mathlib

/-!
Shallow embedding of `src/downloader/headers/header_slices.rs`.

The `HeaderSlices` structure is a memory-limited sliding window of
`HeaderSlice` objects.  Block numbers (`u64` in the source) are modelled as
`Nat`; all arithmetic performed by the code stays far below `2^64` on the
domains stated in the theorems (each theorem's hypotheses keep subtraction
and addition within range), so no explicit wrap-around is modelled.
`usize` counters are also `Nat`; `AtomicUsize::fetch_sub` wraps on
underflow in Rust, here truncated subtraction is used and every theorem
about a decrement carries the hypothesis that rules underflow out.

Payload fields of a slice (`headers`, `from_peer_id`, `request_time`,
`request_attempt`) are omitted: none of the operations verified here reads
or branches on them (`new` and `refill` initialise them to `None`/`0`,
`remove`, `set_slice_status` and the finders ignore them), and their types
(`BlockHeader`, `PeerId`, `Instant`) are defined outside the sources under
verification.  `sizeof(BlockHeader)` (the `BlockHeader` definition lives in
`header.rs`, not among the sources) is passed to `HeaderSlices.new` as the
explicit parameter `header_size`.
-/

/-- Lifecycle status of a header slice (`HeaderSliceStatus` in the source). -/
inductive HeaderSliceStatus where
  | Empty
  | Waiting
  | Downloaded
  | VerifiedInternally
  | Verified
  | Invalid
  | Saved
deriving DecidableEq

/-- All seven statuses, in the declaration order used by `strum::EnumIter`. -/
def allStatuses : List HeaderSliceStatus :=
  [HeaderSliceStatus.Empty, HeaderSliceStatus.Waiting, HeaderSliceStatus.Downloaded,
   HeaderSliceStatus.VerifiedInternally, HeaderSliceStatus.Verified,
   HeaderSliceStatus.Invalid, HeaderSliceStatus.Saved]

/-- A slice of headers: its first block number and its status. -/
structure HeaderSlice where
  start_block_num : Nat
  status : HeaderSliceStatus
deriving DecidableEq

/-- The `HEADER_SLICE_SIZE` constant (192 headers per slice). -/
def HEADER_SLICE_SIZE : Nat := 192

/-- The sliding window (`HeaderSlices` in the source).  `counters` models the
per-status `state_watches` counts. -/
@[ext]
structure HeaderSlices where
  slices : List HeaderSlice
  max_slices : Nat
  max_block_num : Nat
  final_block_num : Nat
  counters : HeaderSliceStatus → Nat

/-- Initial per-status counts built by `make_state_watches`: `max_slices` for
`Empty`, zero for every other status. -/
def initialCounters (max_slices : Nat) : HeaderSliceStatus → Nat :=
  fun s => if s = HeaderSliceStatus.Empty then max_slices else 0

/-- The constructor `HeaderSlices::new`.  The two `assert_eq!` alignment checks
become `Except.error` (a Rust panic).  `header_size` stands for
`sizeof(BlockHeader)`.  The `total_block_num` subtraction is `usize`
subtraction in the source; theorems that use it carry
`start_block_num ≤ final_block_num`. -/
def HeaderSlices.new (header_size mem_limit start_block_num final_block_num : Nat) :
    Except String HeaderSlices :=
  let max_slices := mem_limit / header_size / HEADER_SLICE_SIZE
  if start_block_num % HEADER_SLICE_SIZE ≠ 0 then
    Except.error "start_block_num must be at the slice boundary"
  else if final_block_num % HEADER_SLICE_SIZE ≠ 0 then
    Except.error "final_block_num must be at the slice boundary"
  else
    let total_block_num := final_block_num - start_block_num
    let max_slices := min max_slices (total_block_num / HEADER_SLICE_SIZE)
    Except.ok
      { slices := (List.range max_slices).map (fun i =>
          { start_block_num := start_block_num + i * HEADER_SLICE_SIZE
            status := HeaderSliceStatus.Empty })
        max_slices := max_slices
        max_block_num := start_block_num + max_slices * HEADER_SLICE_SIZE
        final_block_num := final_block_num
        counters := initialCounters max_slices }

/-- The cursor loop of `HeaderSlices::remove`: scan left to right, drop every
slice whose status matches, count the dropped ones. -/
def removeScan (status : HeaderSliceStatus) : List HeaderSlice → List HeaderSlice × Nat
  | [] => ([], 0)
  | slice :: rest =>
    let (rest', count) := removeScan status rest
    if slice.status = status then (rest', count + 1) else (slice :: rest', count)

/-- `HeaderSlices::remove`: delete every slice with the given status and
decrement that status's counter by the number deleted (`fetch_sub`). -/
def HeaderSlices.remove (self : HeaderSlices) (status : HeaderSliceStatus) : HeaderSlices :=
  let scanned := removeScan status self.slices
  { self with
    slices := scanned.1
    counters := fun s => if s = status then self.counters s - scanned.2 else self.counters s }

/-- The append loop of `HeaderSlices::refill`, with `fuel` the number of loop
iterations (`initial_len..max_slices`).  Returns the new slice list, the new
`max_block_num` and the number of slices appended. -/
def refillScan (final_block_num : Nat) :
    Nat → List HeaderSlice → Nat → List HeaderSlice × Nat × Nat
  | 0, slices, max_block_num => (slices, max_block_num, 0)
  | fuel + 1, slices, max_block_num =>
    if final_block_num ≤ max_block_num then (slices, max_block_num, 0)
    else
      let slice : HeaderSlice :=
        { start_block_num := max_block_num, status := HeaderSliceStatus.Empty }
      let result := refillScan final_block_num fuel (slices ++ [slice])
        (max_block_num + HEADER_SLICE_SIZE)
      (result.1, result.2.1, result.2.2 + 1)

/-- `HeaderSlices::refill`: append `Empty` slices at the tail until the window
holds `max_slices` slices or `max_block_num` reaches `final_block_num`;
increment the `Empty` counter by the number appended (`fetch_add`). -/
def HeaderSlices.refill (self : HeaderSlices) : HeaderSlices :=
  let result := refillScan self.final_block_num (self.max_slices - self.slices.length)
    self.slices self.max_block_num
  { self with
    slices := result.1
    max_block_num := result.2.1
    counters := fun s =>
      if s = HeaderSliceStatus.Empty then self.counters s + result.2.2 else self.counters s }

/-- `HeaderSlices::set_slice_status` applied to the slice at position `i` of
the window: if the new status differs from the old one, update the slice and
adjust the two affected counters.  Out-of-range positions leave the window
unchanged (the Rust function receives a reference to a slice of the window,
so only in-range positions occur). -/
def HeaderSlices.set_slice_status (self : HeaderSlices) (i : Nat)
    (status : HeaderSliceStatus) : HeaderSlices :=
  match self.slices.get? i with
  | none => self
  | some slice =>
    if status = slice.status then self
    else
      { self with
        slices := self.slices.set i { slice with status := status }
        counters := fun s =>
          if s = slice.status then self.counters s - 1
          else if s = status then self.counters s + 1
          else self.counters s }

/-- `HeaderSlices::find_by_status`: the first slice with the given status. -/
def HeaderSlices.find_by_status (self : HeaderSlices) (status : HeaderSliceStatus) :
    Option HeaderSlice :=
  self.slices.find? (fun slice => decide (slice.status = status))

/-- The loop of `HeaderSlices::find_batch_by_status`, carrying the `batch`
accumulator: push every matching slice and stop as soon as the batch length
equals `batch_size`. -/
def findBatchScan (status : HeaderSliceStatus) (batch_size : Nat) :
    List HeaderSlice → List HeaderSlice → List HeaderSlice
  | [], batch => batch
  | slice :: rest, batch =>
    if slice.status = status then
      let batch' := batch ++ [slice]
      if batch'.length = batch_size then batch'
      else findBatchScan status batch_size rest batch'
    else findBatchScan status batch_size rest batch

/-- `HeaderSlices::find_batch_by_status`. -/
def HeaderSlices.find_batch_by_status (self : HeaderSlices) (status : HeaderSliceStatus)
    (batch_size : Nat) : List HeaderSlice :=
  findBatchScan status batch_size self.slices []

/-- `HeaderSlices::count_slices_in_status`: read the status counter. -/
def HeaderSlices.count_slices_in_status (self : HeaderSlices)
    (status : HeaderSliceStatus) : Nat :=
  self.counters status

/-- `HeaderSlices::min_block_num`: the first slice's start, or `max_block_num`
when the window is empty. -/
def HeaderSlices.min_block_num (self : HeaderSlices) : Nat :=
  match self.slices.head? with
  | some first_slice => first_slice.start_block_num
  | none => self.max_block_num

/-- The free function `align_block_num_to_slice_start`. -/
def align_block_num_to_slice_start (num : Nat) : Nat :=
  num / HEADER_SLICE_SIZE * HEADER_SLICE_SIZE

/-- States reachable from a successful `HeaderSlices::new` by any sequence of
`refill`, `remove` and `set_slice_status` calls. -/
inductive Reachable : HeaderSlices → Prop where
  | new (header_size mem_limit start_block_num final_block_num : Nat) (st : HeaderSlices)
      (h : HeaderSlices.new header_size mem_limit start_block_num final_block_num =
        Except.ok st) : Reachable st
  | refill (st : HeaderSlices) (h : Reachable st) : Reachable st.refill
  | remove (st : HeaderSlices) (status : HeaderSliceStatus) (h : Reachable st) :
      Reachable (st.remove status)
  | set_slice_status (st : HeaderSlices) (i : Nat) (status : HeaderSliceStatus)
      (h : Reachable st) : Reachable (st.set_slice_status i status)

/-- All slices with the given status sit in a contiguous run at the head of
the window: some head run of length `k` matches and nothing after it does. -/
def StatusAtHeadOnly (st : HeaderSlices) (status : HeaderSliceStatus) : Prop :=
  ∃ k, k ≤ st.slices.length ∧
    (∀ sl ∈ st.slices.take k, sl.status = status) ∧
    (∀ sl ∈ st.slices.drop k, sl.status ≠ status)

/-- States reachable when every `remove(status)` call happens only while the
slices with that status form a contiguous run at the head of the window (the
usage pattern of the save/refill stages: only leading `Saved` slices are
removed). -/
inductive ReachableHR : HeaderSlices → Prop where
  | new (header_size mem_limit start_block_num final_block_num : Nat) (st : HeaderSlices)
      (h : HeaderSlices.new header_size mem_limit start_block_num final_block_num =
        Except.ok st) : ReachableHR st
  | refill (st : HeaderSlices) (h : ReachableHR st) : ReachableHR st.refill
  | remove (st : HeaderSlices) (status : HeaderSliceStatus) (h : ReachableHR st)
      (hhead : StatusAtHeadOnly st status) : ReachableHR (st.remove status)
  | set_slice_status (st : HeaderSlices) (i : Nat) (status : HeaderSliceStatus)
      (h : ReachableHR st) : ReachableHR (st.set_slice_status i status)

/-- The window's slice starts form the arithmetic progression
`base, base + 192, …` and `max_block_num` sits one slice past its end. -/
def Shaped (st : HeaderSlices) : Prop :=
  ∃ base, st.max_block_num = base + st.slices.length * HEADER_SLICE_SIZE ∧
    st.slices.map (fun sl => sl.start_block_num) =
      (List.range st.slices.length).map (fun i => base + i * HEADER_SLICE_SIZE)

/-- An empty window: no slices, `max_slices = 0`, `max_block_num` at the start.
This is exactly what `HeaderSlices::new` produces when the memory budget is
below one slice's worth. -/
def emptyWindow (start_block_num final_block_num : Nat) : HeaderSlices :=
  { slices := []
    max_slices := 0
    max_block_num := start_block_num
    final_block_num := final_block_num
    counters := initialCounters 0 }

/-- C10: `align_block_num_to_slice_start` returns the greatest multiple of
`SLICE_SIZE = 192` not exceeding its argument (the result is divisible by 192,
is at most `num`, and `num` minus the result is less than 192), and the
function is idempotent. -/
theorem align_block_num_spec (num : Nat) :
    HEADER_SLICE_SIZE ∣ align_block_num_to_slice_start num ∧
    align_block_num_to_slice_start num ≤ num ∧
    num - align_block_num_to_slice_start num < HEADER_SLICE_SIZE ∧
    align_block_num_to_slice_start (align_block_num_to_slice_start num) =
      align_block_num_to_slice_start num := by
  unfold align_block_num_to_slice_start HEADER_SLICE_SIZE
  refine ⟨⟨num / 192, Nat.mul_comm _ _⟩, Nat.div_mul_le_self _ _, ?_, ?_⟩
  · have h := Nat.div_add_mod num 192
    have hm : num % 192 < 192 := Nat.mod_lt _ (by norm_num)
    omega
  · rw [Nat.mul_div_cancel _ (by norm_num)]

/-- C8: with `start_block_num ≤ final_block_num` (the domain on which the
`usize` subtraction inside the constructor is meaningful), `HeaderSlices::new`
succeeds if and only if both `start_block_num` and `final_block_num` are
multiples of `SLICE_SIZE = 192`; a misaligned bound makes the corresponding
assertion fire. -/
theorem new_ok_iff_aligned (header_size mem_limit start_block_num final_block_num : Nat)
    (hle : start_block_num ≤ final_block_num) :
    (HeaderSlices.new header_size mem_limit start_block_num final_block_num).isOk = true ↔
      (start_block_num % HEADER_SLICE_SIZE = 0 ∧ final_block_num % HEADER_SLICE_SIZE = 0) := by
  unfold HeaderSlices.new
  by_cases hs : start_block_num % HEADER_SLICE_SIZE = 0 <;>
    by_cases hf : final_block_num % HEADER_SLICE_SIZE = 0 <;>
      simp [hs, hf, Except.isOk, Except.toBool]

/-- Witness for `new_ok_iff_aligned` at `header_size = 1`, `mem_limit = 100`,
`start = 0`, `final = 192`. -/
theorem new_ok_iff_aligned_witness :
    (HeaderSlices.new 1 100 0 192).isOk = true ↔
      ((0 : Nat) % HEADER_SLICE_SIZE = 0 ∧ (192 : Nat) % HEADER_SLICE_SIZE = 0) :=
  new_ok_iff_aligned 1 100 0 192 (by omega)

/-- C7: on aligned bounds, `HeaderSlices::new` produces exactly the window
whose `max_slices` is `mem_limit / sizeof(BlockHeader) / SLICE_SIZE` capped by
`(final_block_num - start_block_num) / SLICE_SIZE`, whose slice list holds
exactly `max_slices` slices, slice `i` being `Empty` and starting at
`start_block_num + i * SLICE_SIZE`, and whose `max_block_num` is
`start_block_num + max_slices * SLICE_SIZE`. -/
theorem new_window_spec (header_size mem_limit start_block_num final_block_num : Nat)
    (hs : start_block_num % HEADER_SLICE_SIZE = 0)
    (hf : final_block_num % HEADER_SLICE_SIZE = 0)
    (hle : start_block_num ≤ final_block_num) :
    HeaderSlices.new header_size mem_limit start_block_num final_block_num =
      Except.ok
        { slices := (List.range (min (mem_limit / header_size / HEADER_SLICE_SIZE)
              ((final_block_num - start_block_num) / HEADER_SLICE_SIZE))).map (fun i =>
            { start_block_num := start_block_num + i * HEADER_SLICE_SIZE
              status := HeaderSliceStatus.Empty })
          max_slices := min (mem_limit / header_size / HEADER_SLICE_SIZE)
            ((final_block_num - start_block_num) / HEADER_SLICE_SIZE)
          max_block_num := start_block_num +
            min (mem_limit / header_size / HEADER_SLICE_SIZE)
              ((final_block_num - start_block_num) / HEADER_SLICE_SIZE) * HEADER_SLICE_SIZE
          final_block_num := final_block_num
          counters := initialCounters (min (mem_limit / header_size / HEADER_SLICE_SIZE)
            ((final_block_num - start_block_num) / HEADER_SLICE_SIZE)) } := by
  unfold HeaderSlices.new
  simp [hs, hf]

/-- Witness for `new_window_spec` at `header_size = 1`, `mem_limit = 100000`,
`start = 0`, `final = 576`. -/
theorem new_window_spec_witness :
    HeaderSlices.new 1 100000 0 576 =
      Except.ok
        { slices := (List.range (min (100000 / 1 / HEADER_SLICE_SIZE)
              ((576 - 0) / HEADER_SLICE_SIZE))).map (fun i =>
            { start_block_num := 0 + i * HEADER_SLICE_SIZE
              status := HeaderSliceStatus.Empty })
          max_slices := min (100000 / 1 / HEADER_SLICE_SIZE) ((576 - 0) / HEADER_SLICE_SIZE)
          max_block_num := 0 + min (100000 / 1 / HEADER_SLICE_SIZE)
            ((576 - 0) / HEADER_SLICE_SIZE) * HEADER_SLICE_SIZE
          final_block_num := 576
          counters := initialCounters (min (100000 / 1 / HEADER_SLICE_SIZE)
            ((576 - 0) / HEADER_SLICE_SIZE)) } :=
  new_window_spec 1 100000 0 576 rfl rfl (by omega)

/-- C2 counterexample: with `header_size = 1`, `mem_limit = 100` (below one
slice's worth: `100 / 1 / 192 = 0`), `start = 0` and `final = 192 > 0`,
`HeaderSlices::new` does NOT fail: it returns `Except.ok`, with an empty slice
list — no assertion checks the memory budget. -/
theorem new_small_mem_counterexample :
    100 / 1 / HEADER_SLICE_SIZE = 0 ∧ (0 : Nat) < 192 ∧
    (HeaderSlices.new 1 100 0 192).isOk = true ∧
    (HeaderSlices.new 1 100 0 192).toOption.map HeaderSlices.slices = some [] := by
  refine ⟨by norm_num [HEADER_SLICE_SIZE], by norm_num, rfl, rfl⟩

/-- C2 (amended): constructing with a `mem_limit` below one slice's worth
(`mem_limit / sizeof(BlockHeader) / SLICE_SIZE = 0`) while
`final_block_num > start_block_num` (aligned bounds) SUCCEEDS: it returns a
window with `max_slices = 0` and no slices, and `refill` on that window is the
identity, so the window never becomes usable — but no error is produced at
construction. -/
theorem new_small_mem_spec (header_size mem_limit start_block_num final_block_num : Nat)
    (hs : start_block_num % HEADER_SLICE_SIZE = 0)
    (hf : final_block_num % HEADER_SLICE_SIZE = 0)
    (hlt : start_block_num < final_block_num)
    (hm : mem_limit / header_size / HEADER_SLICE_SIZE = 0) :
    HeaderSlices.new header_size mem_limit start_block_num final_block_num =
      Except.ok (emptyWindow start_block_num final_block_num) ∧
    (emptyWindow start_block_num final_block_num).slices = [] ∧
    (emptyWindow start_block_num final_block_num).refill =
      emptyWindow start_block_num final_block_num := by
  refine ⟨?_, rfl, ?_⟩
  · unfold HeaderSlices.new
    simp [hs, hf, hm, emptyWindow]
  · unfold HeaderSlices.refill
    ext s
    · simp [emptyWindow, refillScan]
    · simp [emptyWindow, refillScan]
    · simp [emptyWindow, refillScan]
    · simp [emptyWindow, refillScan]
    · simp [emptyWindow, refillScan]

/-- Witness for `new_small_mem_spec` at `header_size = 1`, `mem_limit = 100`,
`start = 0`, `final = 192`. -/
theorem new_small_mem_spec_witness :
    HeaderSlices.new 1 100 0 192 = Except.ok (emptyWindow 0 192) ∧
    (emptyWindow 0 192).slices = [] ∧
    (emptyWindow 0 192).refill = emptyWindow 0 192 :=
  new_small_mem_spec 1 100 0 192 rfl rfl (by omega) (by norm_num [HEADER_SLICE_SIZE])

/-- The cursor loop of `remove` keeps exactly the non-matching slices (in
order) and counts the matching ones. -/
theorem removeScan_eq (status : HeaderSliceStatus) (l : List HeaderSlice) :
    removeScan status l =
      (l.filter (fun sl => decide (sl.status ≠ status)),
       (l.filter (fun sl => decide (sl.status = status))).length) := by
  induction l with
  | nil => rfl
  | cons sl rest ih =>
    by_cases h : sl.status = status <;>
      simp [removeScan, List.filter_cons, h, ih]

/-- A two-slice window whose `Saved` slice sits behind a `Waiting` slice. -/
def windowC1 : HeaderSlices :=
  { slices := [{ start_block_num := 0, status := HeaderSliceStatus.Waiting },
               { start_block_num := 192, status := HeaderSliceStatus.Saved }]
    max_slices := 2
    max_block_num := 384
    final_block_num := 384
    counters := fun s =>
      if s = HeaderSliceStatus.Waiting then 1
      else if s = HeaderSliceStatus.Saved then 1 else 0 }

/-- C1 counterexample: in `windowC1` the slice at block 192 has status `Saved`
and is preceded by a slice of a different status (`Waiting`), so by the claim
it should remain in the window after `remove(Saved)`.  The code deletes it:
only the `Waiting` slice survives, and the `Saved` counter drops to 0. -/
theorem remove_head_only_counterexample :
    windowC1.slices = [{ start_block_num := 0, status := HeaderSliceStatus.Waiting },
                       { start_block_num := 192, status := HeaderSliceStatus.Saved }] ∧
    (windowC1.remove HeaderSliceStatus.Saved).slices =
      [{ start_block_num := 0, status := HeaderSliceStatus.Waiting }] ∧
    (windowC1.remove HeaderSliceStatus.Saved).counters HeaderSliceStatus.Saved = 0 :=
  ⟨rfl, rfl, rfl⟩

/-- C1 (amended): `remove(status)` deletes ALL slices matching `status`, from
the whole window and not only from its head, preserving the order of the
remaining slices; the counter for `status` is decremented by exactly the
number of slices deleted (stated additively; the hypothesis rules out the
`usize` underflow that cannot occur when the counter is consistent). -/
theorem remove_removes_all_matching (st : HeaderSlices) (status : HeaderSliceStatus)
    (h : (st.slices.filter (fun sl => decide (sl.status = status))).length ≤
      st.counters status) :
    (st.remove status).slices = st.slices.filter (fun sl => decide (sl.status ≠ status)) ∧
    (st.remove status).counters status +
        (st.slices.filter (fun sl => decide (sl.status = status))).length =
      st.counters status := by
  constructor
  · simp [HeaderSlices.remove, removeScan_eq]
  · simp only [HeaderSlices.remove, removeScan_eq, if_pos rfl]
    exact Nat.sub_add_cancel h

/-- Witness for `remove_removes_all_matching` on `windowC1` with `Saved`. -/
theorem remove_removes_all_matching_witness :
    (windowC1.remove HeaderSliceStatus.Saved).slices =
      windowC1.slices.filter (fun sl => decide (sl.status ≠ HeaderSliceStatus.Saved)) ∧
    (windowC1.remove HeaderSliceStatus.Saved).counters HeaderSliceStatus.Saved +
        (windowC1.slices.filter
          (fun sl => decide (sl.status = HeaderSliceStatus.Saved))).length =
      windowC1.counters HeaderSliceStatus.Saved :=
  remove_removes_all_matching windowC1 HeaderSliceStatus.Saved (by decide)

/-- Finding the first slice with a status is taking the head of the filtered
window. -/
theorem find?_eq_head?_filter (p : HeaderSlice → Bool) (l : List HeaderSlice) :
    l.find? p = (l.filter p).head? := by
  induction l with
  | nil => rfl
  | cons sl rest ih =>
    cases h : p sl
    · rw [List.find?_cons_of_neg _ (by simp [h]), List.filter_cons_of_neg (by simp [h]), ih]
    · rw [List.find?_cons_of_pos _ h, List.filter_cons_of_pos h, List.head?_cons]

/-- The batch loop of `find_batch_by_status`, run with an accumulator shorter
than `batch_size`, extends the accumulator with the first
`batch_size - acc.length` matching slices. -/
theorem findBatchScan_eq (status : HeaderSliceStatus) (batch_size : Nat) :
    ∀ (l acc : List HeaderSlice), acc.length < batch_size →
      findBatchScan status batch_size l acc =
        acc ++ (l.filter (fun sl => decide (sl.status = status))).take
          (batch_size - acc.length) := by
  intro l
  induction l with
  | nil => intro acc hacc; simp [findBatchScan]
  | cons sl rest ih =>
    intro acc hacc
    by_cases h : sl.status = status
    · simp only [findBatchScan, if_pos h]
      by_cases hlen : (acc ++ [sl]).length = batch_size
      · rw [if_pos hlen]
        have h1 : batch_size - acc.length = 1 := by
          simp only [List.length_append, List.length_cons, List.length_nil] at hlen
          omega
        simp [List.filter_cons, h, h1]
      · rw [if_neg hlen]
        have hlt : (acc ++ [sl]).length < batch_size := by
          simp only [List.length_append, List.length_cons, List.length_nil] at hlen ⊢
          omega
        rw [ih _ hlt]
        have h2 : batch_size - acc.length = (batch_size - (acc ++ [sl]).length) + 1 := by
          simp only [List.length_append, List.length_cons, List.length_nil]
          omega
        simp [List.filter_cons, h, h2, List.take_succ_cons, List.append_assoc]
    · simp only [findBatchScan, if_neg h]
      rw [ih _ hacc]
      simp [List.filter_cons, h]

/-- A one-slice window holding a single `Empty` slice. -/
def windowC9 : HeaderSlices :=
  { slices := [{ start_block_num := 0, status := HeaderSliceStatus.Empty }]
    max_slices := 1
    max_block_num := 192
    final_block_num := 192
    counters := initialCounters 1 }

/-- C9 counterexample: with `k = 0` the claim says `find_batch_by_status`
returns the first `min(0, 1) = 0` matching slices, i.e. the empty list; the
code's loop checks `batch.len() == batch_size` only after pushing, so a batch
size of 0 never stops it and it returns ALL matching slices. -/
theorem find_batch_zero_counterexample :
    windowC9.find_batch_by_status HeaderSliceStatus.Empty 0 =
      [{ start_block_num := 0, status := HeaderSliceStatus.Empty }] ∧
    (windowC9.slices.filter
      (fun sl => decide (sl.status = HeaderSliceStatus.Empty))).take 0 = [] ∧
    windowC9.find_batch_by_status HeaderSliceStatus.Empty 0 ≠
      (windowC9.slices.filter
        (fun sl => decide (sl.status = HeaderSliceStatus.Empty))).take 0 :=
  ⟨rfl, rfl, by decide⟩

/-- C9 (amended): for every `k ≥ 1`, `find_batch_by_status(s, k)` returns, in
window order, exactly the first `min(k, number of matching slices)` slices
with status `s` (i.e. the first `k` elements of the filtered window), and
`find_by_status(s)` returns the first matching slice or `None`.  For `k = 0`
the batch operation instead returns all matching slices. -/
theorem find_by_status_spec (st : HeaderSlices) (status : HeaderSliceStatus)
    (batch_size : Nat) (hbs : 0 < batch_size) :
    st.find_batch_by_status status batch_size =
      (st.slices.filter (fun sl => decide (sl.status = status))).take batch_size ∧
    st.find_by_status status =
      (st.slices.filter (fun sl => decide (sl.status = status))).head? := by
  constructor
  · unfold HeaderSlices.find_batch_by_status
    rw [findBatchScan_eq status batch_size st.slices [] (by simpa using hbs)]
    simp
  · exact find?_eq_head?_filter _ _

/-- Witness for `find_by_status_spec` on `windowC9` with `Empty`, `k = 1`. -/
theorem find_by_status_spec_witness :
    windowC9.find_batch_by_status HeaderSliceStatus.Empty 1 =
      (windowC9.slices.filter
        (fun sl => decide (sl.status = HeaderSliceStatus.Empty))).take 1 ∧
    windowC9.find_by_status HeaderSliceStatus.Empty =
      (windowC9.slices.filter
        (fun sl => decide (sl.status = HeaderSliceStatus.Empty))).head? :=
  find_by_status_spec windowC9 HeaderSliceStatus.Empty 1 (by decide)

/-- Unfolding of the `refill` append loop: it appends some number `count` of
`Empty` slices whose starts advance from the initial `max_block_num` in steps
of `SLICE_SIZE`, advances `max_block_num` accordingly, never appends more than
`fuel` slices, and stops only by exhausting `fuel` or reaching
`final_block_num`. -/
theorem refillScan_spec (final_block_num : Nat) :
    ∀ (fuel : Nat) (slices : List HeaderSlice) (max_block_num : Nat),
    ∃ count,
      refillScan final_block_num fuel slices max_block_num =
        (slices ++ (List.range count).map (fun i =>
          { start_block_num := max_block_num + i * HEADER_SLICE_SIZE
            status := HeaderSliceStatus.Empty }),
         max_block_num + count * HEADER_SLICE_SIZE, count) ∧
      count ≤ fuel ∧
      (count = fuel ∨ final_block_num ≤ max_block_num + count * HEADER_SLICE_SIZE) := by
  intro fuel
  induction fuel with
  | zero =>
    intro slices maxB
    exact ⟨0, by simp [refillScan], Nat.le_refl 0, Or.inl rfl⟩
  | succ fuel ih =>
    intro slices maxB
    by_cases h : final_block_num ≤ maxB
    · exact ⟨0, by simp [refillScan, h], Nat.zero_le _, Or.inr (by simpa using h)⟩
    · obtain ⟨c, heq, hle, hstop⟩ :=
        ih (slices ++ [{ start_block_num := maxB, status := HeaderSliceStatus.Empty }])
          (maxB + HEADER_SLICE_SIZE)
      refine ⟨c + 1, ?_, Nat.succ_le_succ hle, ?_⟩
      · simp only [refillScan, if_neg h]
        rw [heq]
        refine congrArg₂ Prod.mk ?_ (congrArg₂ Prod.mk ?_ rfl)
        · rw [List.append_assoc, List.singleton_append]
          refine congrArg (slices ++ ·) ?_
          rw [List.range_succ_eq_map, List.map_cons, List.map_map]
          refine congrArg₂ List.cons (by simp) ?_
          refine List.map_congr_left (fun i _ => ?_)
          simp only [Function.comp_apply]
          refine congrArg (fun n => HeaderSlice.mk n HeaderSliceStatus.Empty) ?_
          rw [Nat.succ_eq_add_one]
          ring
        · show maxB + HEADER_SLICE_SIZE + c * HEADER_SLICE_SIZE =
            maxB + (c + 1) * HEADER_SLICE_SIZE
          ring
      · rcases hstop with hc | hfin
        · exact Or.inl (by omega)
        · refine Or.inr ?_
          rw [show (c + 1) * HEADER_SLICE_SIZE =
            HEADER_SLICE_SIZE + c * HEADER_SLICE_SIZE from by ring]
          omega

/-- C6: `refill()` appends only `Empty` slices at the tail, the `i`-th
appended slice starting at the pre-call `max_block_num` plus
`i * SLICE_SIZE` (so each append advances `max_block_num` by `SLICE_SIZE`),
stops only once the length reaches `max_slices` or `max_block_num` reaches
`final_block_num`, and leaves the window length at most `max_slices`
(hypothesis: the window did not exceed `max_slices` before the call, which
holds in every reachable state). -/
theorem refill_append_spec (st : HeaderSlices) (h : st.slices.length ≤ st.max_slices) :
    st.refill.slices = st.slices ++
      (List.range (st.refill.slices.length - st.slices.length)).map (fun i =>
        { start_block_num := st.max_block_num + i * HEADER_SLICE_SIZE
          status := HeaderSliceStatus.Empty }) ∧
    st.refill.max_block_num = st.max_block_num +
      (st.refill.slices.length - st.slices.length) * HEADER_SLICE_SIZE ∧
    (st.refill.slices.length = st.max_slices ∨
      st.final_block_num ≤ st.refill.max_block_num) ∧
    st.refill.slices.length ≤ st.max_slices := by
  obtain ⟨c, heq, hc, hstop⟩ := refillScan_spec st.final_block_num
    (st.max_slices - st.slices.length) st.slices st.max_block_num
  have hs : st.refill.slices = st.slices ++ (List.range c).map (fun i =>
      { start_block_num := st.max_block_num + i * HEADER_SLICE_SIZE
        status := HeaderSliceStatus.Empty }) := by
    simp [HeaderSlices.refill, heq]
  have hm : st.refill.max_block_num = st.max_block_num + c * HEADER_SLICE_SIZE := by
    simp [HeaderSlices.refill, heq]
  have hlen : st.refill.slices.length = st.slices.length + c := by
    simp [hs]
  have hcc : st.refill.slices.length - st.slices.length = c := by omega
  refine ⟨by rw [hcc]; exact hs, by rw [hcc]; exact hm, ?_, by omega⟩
  rcases hstop with hcf | hfin
  · exact Or.inl (by omega)
  · exact Or.inr (by omega)

/-- A window with one `Empty` slice and room to grow, used as witness data. -/
def windowC6 : HeaderSlices :=
  { slices := [{ start_block_num := 0, status := HeaderSliceStatus.Empty }]
    max_slices := 3
    max_block_num := 192
    final_block_num := 384
    counters := initialCounters 1 }

/-- Witness for `refill_append_spec` on `windowC6`. -/
theorem refill_append_spec_witness :
    windowC6.refill.slices = windowC6.slices ++
      (List.range (windowC6.refill.slices.length - windowC6.slices.length)).map (fun i =>
        { start_block_num := windowC6.max_block_num + i * HEADER_SLICE_SIZE
          status := HeaderSliceStatus.Empty }) ∧
    windowC6.refill.max_block_num = windowC6.max_block_num +
      (windowC6.refill.slices.length - windowC6.slices.length) * HEADER_SLICE_SIZE ∧
    (windowC6.refill.slices.length = windowC6.max_slices ∨
      windowC6.final_block_num ≤ windowC6.refill.max_block_num) ∧
    windowC6.refill.slices.length ≤ windowC6.max_slices :=
  refill_append_spec windowC6 (by decide)

/-- The per-status counters agree with the actual number of slices in each
status. -/
def CountersConsistent (st : HeaderSlices) : Prop :=
  ∀ status, st.counters status =
    (st.slices.filter (fun sl => decide (sl.status = status))).length

/-- Filtering a list of all-`Empty` slices by a status keeps everything for
`Empty` and nothing otherwise. -/
theorem filter_empty_run_length (status : HeaderSliceStatus) (f : Nat → Nat) (n : Nat) :
    (((List.range n).map (fun i =>
        { start_block_num := f i, status := HeaderSliceStatus.Empty : HeaderSlice })).filter
      (fun sl => decide (sl.status = status))).length =
    if status = HeaderSliceStatus.Empty then n else 0 := by
  rw [List.filter_map]
  by_cases h : status = HeaderSliceStatus.Empty
  · subst h
    have hall : List.filter ((fun sl => decide (sl.status = HeaderSliceStatus.Empty)) ∘
        fun i => { start_block_num := f i, status := HeaderSliceStatus.Empty : HeaderSlice })
        (List.range n) = List.range n :=
      List.filter_eq_self.mpr (fun a _ => rfl)
    simp [hall]
  · have hne : HeaderSliceStatus.Empty ≠ status := fun hcontra => h hcontra.symm
    have hnone : List.filter ((fun sl => decide (sl.status = status)) ∘
        fun i => { start_block_num := f i, status := HeaderSliceStatus.Empty : HeaderSlice })
        (List.range n) = [] :=
      List.filter_eq_nil.mpr (fun a _ => by simp [hne])
    simp [hnone, h]

/-- Replacing the element at position `i` changes the filtered length by the
difference of the two indicator values. -/
theorem filter_length_set (p : HeaderSlice → Bool) :
    ∀ (l : List HeaderSlice) (i : Nat) (a b : HeaderSlice), l.get? i = some b →
      ((l.set i a).filter p).length + (if p b then 1 else 0) =
        (l.filter p).length + (if p a then 1 else 0) := by
  intro l
  induction l with
  | nil => intro i a b h; cases h
  | cons x xs ih =>
    intro i a b h
    cases i with
    | zero =>
      rw [List.get?_cons_zero] at h
      injection h with hb
      subst hb
      rw [List.set_cons_zero, List.filter_cons, List.filter_cons]
      by_cases hx : p x <;> by_cases ha : p a <;> simp [hx, ha] <;> omega
    | succ n =>
      rw [List.get?_cons_succ] at h
      have hrec := ih n a b h
      rw [List.set_cons_succ, List.filter_cons, List.filter_cons]
      by_cases hx : p x <;> simp [hx] <;> omega

/-- A freshly constructed window has consistent counters. -/
theorem countersConsistent_new (header_size mem_limit start_block_num final_block_num : Nat)
    (st : HeaderSlices)
    (h : HeaderSlices.new header_size mem_limit start_block_num final_block_num =
      Except.ok st) : CountersConsistent st := by
  unfold HeaderSlices.new at h
  by_cases hs : start_block_num % HEADER_SLICE_SIZE = 0
  · by_cases hf : final_block_num % HEADER_SLICE_SIZE = 0
    · rw [if_neg (by simp [hs]), if_neg (by simp [hf])] at h
      injection h with h
      subst h
      intro status
      simp only [initialCounters]
      rw [filter_empty_run_length]
    · rw [if_neg (by simp [hs]), if_pos (by simpa using hf)] at h
      cases h
  · rw [if_pos (by simpa using hs)] at h
    cases h

/-- `remove` keeps the counters consistent. -/
theorem countersConsistent_remove (st : HeaderSlices) (status : HeaderSliceStatus)
    (ih : CountersConsistent st) : CountersConsistent (st.remove status) := by
  intro u
  simp only [HeaderSlices.remove, removeScan_eq]
  by_cases hu : u = status
  · subst hu
    rw [if_pos rfl, ih u]
    have hnil : List.filter (fun sl => decide (sl.status = u))
        (List.filter (fun sl => decide (sl.status ≠ u)) st.slices) = [] := by
      refine List.filter_eq_nil_iff.mpr (fun a ha => ?_)
      have := (List.mem_filter.mp ha).2
      simp at this ⊢
      exact this
    rw [hnil]
    simp
  · rw [if_neg hu, ih u]
    refine congrArg List.length ?_
    rw [List.filter_filter]
    refine (List.filter_congr (fun a _ => ?_)).symm
    by_cases ha : a.status = u
    · have : a.status ≠ status := fun hcontra => hu (ha.symm.trans hcontra)
      simp [ha, this, hu]
    · simp [ha]

/-- `refill` keeps the counters consistent. -/
theorem countersConsistent_refill (st : HeaderSlices)
    (ih : CountersConsistent st) : CountersConsistent st.refill := by
  obtain ⟨c, heq, -, -⟩ := refillScan_spec st.final_block_num
    (st.max_slices - st.slices.length) st.slices st.max_block_num
  intro u
  simp only [HeaderSlices.refill, heq]
  rw [List.filter_append, List.length_append, ← ih u, filter_empty_run_length]
  by_cases hu : u = HeaderSliceStatus.Empty <;> simp [hu]

/-- `set_slice_status` keeps the counters consistent. -/
theorem countersConsistent_set (st : HeaderSlices) (i : Nat) (status : HeaderSliceStatus)
    (ih : CountersConsistent st) : CountersConsistent (st.set_slice_status i status) := by
  unfold HeaderSlices.set_slice_status
  split
  · exact ih
  · next slice hget =>
    split
    · exact ih
    · next hne =>
      intro u
      have hall := filter_length_set (fun sl => decide (sl.status = u))
        st.slices i { slice with status := status } slice hget
      have hih := ih u
      simp only [decide_eq_true_eq] at hall
      show (if u = slice.status then st.counters u - 1
            else if u = status then st.counters u + 1 else st.counters u) =
        (List.filter (fun sl => decide (sl.status = u))
          (st.slices.set i { slice with status := status })).length
      by_cases hu1 : u = slice.status <;> by_cases hu2 : u = status
      · exact absurd (hu2.symm.trans hu1) hne
      · rw [if_pos hu1]
        rw [if_pos hu1.symm, if_neg (fun hcontra => hu2 hcontra.symm)] at hall
        omega
      · rw [if_neg hu1, if_pos hu2]
        rw [if_neg (fun hcontra => hu1 hcontra.symm), if_pos hu2.symm] at hall
        omega
      · rw [if_neg hu1, if_neg hu2]
        rw [if_neg (fun hcontra => hu1 hcontra.symm),
          if_neg (fun hcontra => hu2 hcontra.symm)] at hall
        omega

/-- Every state reachable by `new` / `refill` / `remove` / `set_slice_status`
has consistent counters. -/
theorem reachable_countersConsistent (st : HeaderSlices) (h : Reachable st) :
    CountersConsistent st := by
  induction h with
  | new header_size mem_limit start_block_num final_block_num st hok =>
    exact countersConsistent_new header_size mem_limit start_block_num final_block_num st hok
  | refill st _ ih => exact countersConsistent_refill st ih
  | remove st status _ ih => exact countersConsistent_remove st status ih
  | set_slice_status st i status _ ih => exact countersConsistent_set st i status ih

/-- Filtering a cons by a status adds the head's indicator to the length. -/
theorem length_filter_cons_eq (sl : HeaderSlice) (rest : List HeaderSlice)
    (u : HeaderSliceStatus) :
    (List.filter (fun x => decide (x.status = u)) (sl :: rest)).length =
      (List.filter (fun x => decide (x.status = u)) rest).length +
        (if sl.status = u then 1 else 0) := by
  rw [List.filter_cons]
  by_cases h : sl.status = u <;> simp [h]

/-- The per-status slice counts sum to the window length: each slice has
exactly one status. -/
theorem sum_status_counts (l : List HeaderSlice) :
    (allStatuses.map (fun status =>
      (l.filter (fun sl => decide (sl.status = status))).length)).sum = l.length := by
  induction l with
  | nil => rfl
  | cons sl rest ih =>
    simp only [allStatuses, List.map_cons, List.map_nil, List.sum_cons, List.sum_nil,
      length_filter_cons_eq, List.length_cons] at ih ⊢
    cases hcase : sl.status <;> simp only [hcase] <;> simp <;> omega

/-- C4: in every reachable window state, `count_slices_in_status(s)` equals
the number of slices whose status is `s`, and the counters over all seven
statuses sum to the window length. -/
theorem count_slices_in_status_spec (st : HeaderSlices) (h : Reachable st)
    (status : HeaderSliceStatus) :
    st.count_slices_in_status status =
      (st.slices.filter (fun sl => decide (sl.status = status))).length ∧
    (allStatuses.map st.count_slices_in_status).sum = st.slices.length := by
  have hc := reachable_countersConsistent st h
  refine ⟨hc status, ?_⟩
  have hfn : st.count_slices_in_status = st.counters := rfl
  rw [hfn, List.map_congr_left (fun u _ => hc u)]
  exact sum_status_counts st.slices

/-- The two-slice window produced by `HeaderSlices.new 1 100000 0 384`. -/
def windowA : HeaderSlices :=
  { slices := [{ start_block_num := 0, status := HeaderSliceStatus.Empty },
               { start_block_num := 192, status := HeaderSliceStatus.Empty }]
    max_slices := 2
    max_block_num := 384
    final_block_num := 384
    counters := initialCounters 2 }

/-- Witness for `count_slices_in_status_spec` on the reachable state
`windowA` with status `Empty`. -/
theorem count_slices_in_status_spec_witness :
    windowA.count_slices_in_status HeaderSliceStatus.Empty =
      (windowA.slices.filter
        (fun sl => decide (sl.status = HeaderSliceStatus.Empty))).length ∧
    (allStatuses.map windowA.count_slices_in_status).sum = windowA.slices.length :=
  count_slices_in_status_spec windowA
    (Reachable.new 1 100000 0 384 windowA rfl) HeaderSliceStatus.Empty

/-- Replacing an element by one with the same image leaves the mapped list
unchanged. -/
theorem map_set_same (f : HeaderSlice → Nat) :
    ∀ (l : List HeaderSlice) (i : Nat) (a b : HeaderSlice),
      l.get? i = some b → f a = f b → (l.set i a).map f = l.map f := by
  intro l
  induction l with
  | nil => intro i a b h _; cases h
  | cons x xs ih =>
    intro i a b h hf
    cases i with
    | zero =>
      rw [List.get?_cons_zero] at h
      injection h with hb
      subst hb
      rw [List.set_cons_zero, List.map_cons, List.map_cons, hf]
    | succ n =>
      rw [List.get?_cons_succ] at h
      rw [List.set_cons_succ, List.map_cons, List.map_cons, ih n a b h hf]

/-- Dropping `k` elements of a mapped range shifts the range. -/
theorem drop_range_map (g : Nat → Nat) (n k : Nat) (hk : k ≤ n) :
    List.drop k ((List.range n).map g) = (List.range (n - k)).map (fun i => g (k + i)) := by
  obtain ⟨m, rfl⟩ : ∃ m, n = k + m := ⟨n - k, by omega⟩
  rw [List.range_add, List.map_append, List.drop_left' (by simp), List.map_map,
    show k + m - k = m by omega]
  rfl

/-- A fresh window is shaped. -/
theorem shaped_new (header_size mem_limit start_block_num final_block_num : Nat)
    (st : HeaderSlices)
    (h : HeaderSlices.new header_size mem_limit start_block_num final_block_num =
      Except.ok st) : Shaped st := by
  unfold HeaderSlices.new at h
  by_cases hs : start_block_num % HEADER_SLICE_SIZE = 0
  · by_cases hf : final_block_num % HEADER_SLICE_SIZE = 0
    · rw [if_neg (by simp [hs]), if_neg (by simp [hf])] at h
      injection h with h
      subst h
      refine ⟨start_block_num, by simp, ?_⟩
      simp only [List.map_map, List.length_map, List.length_range]
      rfl
    · rw [if_neg (by simp [hs]), if_pos (by simpa using hf)] at h
      cases h
  · rw [if_pos (by simpa using hs)] at h
    cases h

/-- `set_slice_status` keeps the window shaped: it changes no start, no
length and no `max_block_num`. -/
theorem shaped_set (st : HeaderSlices) (i : Nat) (status : HeaderSliceStatus)
    (ih : Shaped st) : Shaped (st.set_slice_status i status) := by
  unfold HeaderSlices.set_slice_status
  split
  · exact ih
  · next slice hget =>
    split
    · exact ih
    · obtain ⟨base, hmax, hmap⟩ := ih
      refine ⟨base, ?_, ?_⟩
      · simpa [List.length_set] using hmax
      · show List.map (fun sl => sl.start_block_num)
            (st.slices.set i { slice with status := status }) =
          List.map (fun j => base + j * HEADER_SLICE_SIZE)
            (List.range (st.slices.set i { slice with status := status }).length)
        rw [map_set_same (fun sl => sl.start_block_num) st.slices i
            { slice with status := status } slice hget rfl, List.length_set]
        exact hmap

/-- `remove` keeps the window shaped when all matching slices form a head
run: the window becomes a suffix whose starts still advance by
`SLICE_SIZE` and `max_block_num` is untouched. -/
theorem shaped_remove (st : HeaderSlices) (status : HeaderSliceStatus)
    (hhead : StatusAtHeadOnly st status) (ih : Shaped st) :
    Shaped (st.remove status) := by
  obtain ⟨k, hk, htake, hdrop⟩ := hhead
  obtain ⟨base, hmax, hmap⟩ := ih
  have hslices : (st.remove status).slices = st.slices.drop k := by
    show (removeScan status st.slices).1 = st.slices.drop k
    rw [removeScan_eq]
    have hsplit : st.slices = st.slices.take k ++ st.slices.drop k :=
      (List.take_append_drop k st.slices).symm
    rw [hsplit, List.filter_append]
    rw [List.filter_eq_nil_iff.mpr (fun a ha => by simp [htake a ha]),
      List.filter_eq_self.mpr (fun a ha => by simp [hdrop a ha])]
    rw [List.nil_append, ← hsplit]
  refine ⟨base + k * HEADER_SLICE_SIZE, ?_, ?_⟩
  · have hlen : (st.remove status).slices.length = st.slices.length - k := by
      rw [hslices, List.length_drop]
    rw [hlen]
    have hmax2 : (st.remove status).max_block_num = st.max_block_num := rfl
    rw [hmax2, hmax]
    have hsum : k + (st.slices.length - k) = st.slices.length := by omega
    calc base + st.slices.length * HEADER_SLICE_SIZE
        = base + (k + (st.slices.length - k)) * HEADER_SLICE_SIZE := by rw [hsum]
      _ = base + k * HEADER_SLICE_SIZE +
          (st.slices.length - k) * HEADER_SLICE_SIZE := by ring
  · rw [hslices, List.length_drop, List.map_drop, hmap, drop_range_map _ _ _ hk]
    refine List.map_congr_left (fun i _ => ?_)
    ring

/-- `refill` keeps the window shaped: the appended run continues the
progression exactly at the old `max_block_num`. -/
theorem shaped_refill (st : HeaderSlices) (ih : Shaped st) : Shaped st.refill := by
  obtain ⟨c, heq, -, -⟩ := refillScan_spec st.final_block_num
    (st.max_slices - st.slices.length) st.slices st.max_block_num
  obtain ⟨base, hmax, hmap⟩ := ih
  have hslices : st.refill.slices = st.slices ++ (List.range c).map (fun i =>
      { start_block_num := st.max_block_num + i * HEADER_SLICE_SIZE
        status := HeaderSliceStatus.Empty }) := by
    simp [HeaderSlices.refill, heq]
  have hmaxeq : st.refill.max_block_num =
      st.max_block_num + c * HEADER_SLICE_SIZE := by
    simp [HeaderSlices.refill, heq]
  have hlen : st.refill.slices.length = st.slices.length + c := by
    simp [hslices]
  refine ⟨base, ?_, ?_⟩
  · rw [hlen, hmaxeq, hmax]
    ring
  · rw [hlen, hslices, List.map_append, hmap, List.map_map, List.range_add,
      List.map_append, List.map_map]
    refine congrArg
      (List.map (fun j => base + j * HEADER_SLICE_SIZE) (List.range st.slices.length) ++ ·) ?_
    refine List.map_congr_left (fun i _ => ?_)
    simp only [Function.comp_apply]
    rw [hmax]
    ring

/-- Every head-remove-only reachable state is shaped. -/
theorem reachableHR_shaped (st : HeaderSlices) (h : ReachableHR st) : Shaped st := by
  induction h with
  | new header_size mem_limit start_block_num final_block_num st hok =>
    exact shaped_new header_size mem_limit start_block_num final_block_num st hok
  | refill st _ ih => exact shaped_refill st ih
  | remove st status _ hhead ih => exact shaped_remove st status hhead ih
  | set_slice_status st i status _ ih => exact shaped_set st i status ih

/-- C3 (amended): for every state reachable when each `remove(s)` happens only
while the slices with status `s` form a contiguous head run (the intended
save/refill usage), `max_block_num` equals `min_block_num` plus the window
length times `SLICE_SIZE`; `min_block_num` is the first slice's
`start_block_num`, and equals `max_block_num` itself when the window is empty
(the original claim's empty-window clause `max_block_num == final_block_num`
does not hold on the code, and without the head-run restriction the nonempty
clause fails too). -/
theorem max_block_num_inv (st : HeaderSlices) (h : ReachableHR st) :
    st.max_block_num = st.min_block_num + st.slices.length * HEADER_SLICE_SIZE := by
  obtain ⟨base, hmax, hmap⟩ := reachableHR_shaped st h
  cases hs : st.slices with
  | nil =>
    have hmin : st.min_block_num = st.max_block_num := by
      unfold HeaderSlices.min_block_num
      rw [hs]
      rfl
    rw [hmin]
    simp
  | cons a rest =>
    rw [hs] at hmax hmap
    have hmin : st.min_block_num = a.start_block_num := by
      unfold HeaderSlices.min_block_num
      rw [hs]
      rfl
    have hcong := congrArg List.head? hmap
    rw [List.map_cons, List.head?_cons, List.length_cons, List.range_succ_eq_map,
      List.map_cons, List.head?_cons] at hcong
    injection hcong with hcong
    have hhead : a.start_block_num = base := by simpa using hcong
    rw [hmax, hmin, hhead]

/-- Witness for `max_block_num_inv` on the reachable state `windowA`. -/
theorem max_block_num_inv_witness :
    windowA.max_block_num = windowA.min_block_num +
      windowA.slices.length * HEADER_SLICE_SIZE :=
  max_block_num_inv windowA (ReachableHR.new 1 100000 0 384 windowA rfl)

/-- C5 (amended): for every state reachable when each `remove(s)` happens only
while the slices with status `s` form a contiguous head run, consecutive
slices are gap-free: `slice[i+1].start = slice[i].start + SLICE_SIZE`.
Without that restriction, removing a slice from the middle of the window
leaves a gap. -/
theorem slices_gap_free (st : HeaderSlices) (h : ReachableHR st) (i : Nat)
    (hi : i + 1 < st.slices.length) :
    (st.slices.get ⟨i + 1, hi⟩).start_block_num =
      (st.slices.get ⟨i, Nat.lt_of_succ_lt hi⟩).start_block_num + HEADER_SLICE_SIZE := by
  obtain ⟨base, hmax, hmap⟩ := reachableHR_shaped st h
  have hget : ∀ j (hj : j < st.slices.length),
      (st.slices.get ⟨j, hj⟩).start_block_num = base + j * HEADER_SLICE_SIZE := by
    intro j hj
    have hcong := congrArg (fun l => l.get? j) hmap
    simp only [List.get?_map] at hcong
    rw [List.get?_eq_get hj, List.get?_range (by simpa using hj)] at hcong
    simpa using hcong
  rw [hget (i + 1) hi, hget i (Nat.lt_of_succ_lt hi)]
  ring

/-- Witness for `slices_gap_free` on the reachable state `windowA` at `i = 0`. -/
theorem slices_gap_free_witness :
    (windowA.slices.get ⟨0 + 1, by decide⟩).start_block_num =
      (windowA.slices.get ⟨0, by decide⟩).start_block_num + HEADER_SLICE_SIZE :=
  slices_gap_free windowA (ReachableHR.new 1 100000 0 384 windowA rfl) 0 (by decide)

/-- The three-slice window produced by `HeaderSlices.new 1 1000000 0 576`. -/
def windowB0 : HeaderSlices :=
  { slices := [{ start_block_num := 0, status := HeaderSliceStatus.Empty },
               { start_block_num := 192, status := HeaderSliceStatus.Empty },
               { start_block_num := 384, status := HeaderSliceStatus.Empty }]
    max_slices := 3
    max_block_num := 576
    final_block_num := 576
    counters := initialCounters 3 }

/-- The state reached from `windowB0` by marking the MIDDLE slice `Saved` and
then calling `remove(Saved)`: the window keeps slices starting at 0 and 384
while `max_block_num` stays 576. -/
def windowB2 : HeaderSlices :=
  (windowB0.set_slice_status 1 HeaderSliceStatus.Saved).remove HeaderSliceStatus.Saved

/-- C3 counterexample: `windowB2` is reachable (new, set middle slice `Saved`,
remove `Saved`), is nonempty, and violates
`max_block_num = first.start + len * SLICE_SIZE` (576 vs 0 + 2*192 = 384);
moreover `HeaderSlices.new 1 100 0 192` yields a reachable EMPTY window whose
`max_block_num` (0) differs from `final_block_num` (192), refuting the
claim's empty-window clause as well. -/
theorem max_block_num_claim_counterexample :
    Reachable windowB2 ∧
    windowB2.slices.map (fun sl => sl.start_block_num) = [0, 384] ∧
    windowB2.max_block_num ≠
      windowB2.min_block_num + windowB2.slices.length * HEADER_SLICE_SIZE ∧
    Reachable (emptyWindow 0 192) ∧
    (emptyWindow 0 192).slices = [] ∧
    (emptyWindow 0 192).max_block_num ≠ (emptyWindow 0 192).final_block_num :=
  ⟨Reachable.remove _ HeaderSliceStatus.Saved
      (Reachable.set_slice_status windowB0 1 HeaderSliceStatus.Saved
        (Reachable.new 1 1000000 0 576 windowB0 rfl)),
   by decide, by decide,
   Reachable.new 1 100 0 192 (emptyWindow 0 192) rfl,
   rfl, by decide⟩

/-- C5 counterexample: in the reachable state `windowB2` the two remaining
slices start at 0 and 384, so `slice[1].start ≠ slice[0].start + SLICE_SIZE`:
removing a matching slice from the middle of the window leaves a gap. -/
theorem gap_free_claim_counterexample :
    Reachable windowB2 ∧
    windowB2.slices.length = 2 ∧
    (windowB2.slices.get ⟨1, by decide⟩).start_block_num ≠
      (windowB2.slices.get ⟨0, by decide⟩).start_block_num + HEADER_SLICE_SIZE :=
  ⟨Reachable.remove _ HeaderSliceStatus.Saved
      (Reachable.set_slice_status windowB0 1 HeaderSliceStatus.Saved
        (Reachable.new 1 1000000 0 576 windowB0 rfl)),
   by decide, by decide⟩
